import Mathlib

/-!
Verification of the oxg-blockchain node (Go sources under internal/consensus
and internal/execution) against its natural-language specification.

The Go code is shallowly embedded: big.Int becomes Int, Go maps become
association lists with last-write-wins lookup, byte slices become List Nat,
hashes become Nat (0 standing for the all-zero hash), and calls into
external libraries (go-ethereum EVM, CometBFT, the crypto signer) are either
modelled from their documented semantics or passed in as explicit oracle
arguments.  Every definition cites the Go function it embeds.
-/

namespace Oxg

/-- Embeds the `Validator` struct of validators.go.  `Stake` (big.Int) is an
`Int`, `PubKey` a byte list.  The bookkeeping fields `DelegatedTo`,
`CreatedAt`, `LastActiveAt` and `TotalMissed` are never read by the claims
under verification and are omitted. -/
structure Validator where
  Address : String
  PubKey : List Nat
  Stake : Int
  Power : Int
  Jailed : Bool
  JailedUntil : Int
  MissedBlocks : Nat
deriving DecidableEq

/-- Embeds the `ValidatorSet` struct of validators.go.  The Go map keyed by
address is modelled as a list whose entries have pairwise distinct addresses
(maintained by `mapSet` and `mapDelete`). -/
structure ValidatorSet where
  validators : List Validator
  minStake : Int
  maxValidators : Nat
deriving DecidableEq

/-- Embeds map lookup `vs.validators[address]`. -/
def mapGet (l : List Validator) (address : String) : Option Validator :=
  l.find? (fun v => v.Address = address)

/-- Embeds map insertion `vs.validators[address] = v`: overwrite the entry
with the same address if present, else append. -/
def mapSet (l : List Validator) (v : Validator) : List Validator :=
  if l.any (fun w => w.Address = v.Address) then
    l.map (fun w => if w.Address = v.Address then v else w)
  else
    l ++ [v]

/-- Embeds map deletion `delete(vs.validators, address)`. -/
def mapDelete (l : List Validator) (address : String) : List Validator :=
  l.filter (fun v => v.Address ≠ address)

/-- Embeds `calculatePower` of validators.go: `stake / 10^18` (Go `big.Int.Div`
is Euclidean division, which agrees with floor division for the positive
divisor used here), capped above at `maxPower = 1 << 30`.  Note the source
has no lower cap. -/
def calculatePower (stake : Int) : Int :=
  let maxPower : Int := 1073741824
  let power := Int.ediv stake (10 ^ 18)
  if maxPower < power then maxPower else power

/-- The clamp the specification describes for power derivation:
`clamp(floor(stake / 10^18), 0, 2^30)`. -/
def clampPower (stake : Int) : Int :=
  max 0 (min (Int.ediv stake (10 ^ 18)) 1073741824)

/-- The filter both `GetActiveValidators` and `ToCometBFTValidators` apply:
`!v.Jailed && stakeValid` where `stakeValid = v.Stake.Cmp(vs.minStake) >= 0`. -/
def activePred (minStake : Int) (v : Validator) : Bool :=
  !v.Jailed && decide (minStake ≤ v.Stake)

/-- The ordering `sort.Slice` establishes in `GetActiveValidators`
(`validators[i].Stake.Cmp(validators[j].Stake) > 0`): descending stake,
taken non-strictly since Go's sort is unstable on ties. -/
def stakeGE (a b : Validator) : Prop :=
  b.Stake ≤ a.Stake

instance : DecidableRel stakeGE :=
  fun a b => inferInstanceAs (Decidable (b.Stake ≤ a.Stake))

instance : IsTotal Validator stakeGE :=
  ⟨fun a b => (le_total b.Stake a.Stake).imp (fun h => h) (fun h => h)⟩

instance : IsTrans Validator stakeGE :=
  ⟨fun _ _ _ h h' => le_trans h' h⟩

/-- Embeds `GetActiveValidators` of validators.go: keep validators with
`!Jailed` and `Stake ≥ minStake`, sort by stake descending.  The source
returns the whole sorted list; it contains no truncation to
`maxValidators`. -/
def GetActiveValidators (vs : ValidatorSet) : List Validator :=
  (vs.validators.filter (activePred vs.minStake)).insertionSort stakeGE

/-- Embeds the CometBFT `abcitypes.ValidatorUpdate` pairs
(`PubKeyBytes`, `Power`) emitted to the consensus engine. -/
structure ValidatorUpdate where
  PubKeyBytes : List Nat
  Power : Int
deriving DecidableEq

/-- Conversion of one validator to a CometBFT update, as done in the loops of
`ToCometBFTValidators` and `RotateValidators`. -/
def toUpdate (v : Validator) : ValidatorUpdate :=
  { PubKeyBytes := v.PubKey, Power := v.Power }

/-- The guard `len(v.PubKey) == ed25519.PubKeySize` (32) under which a
validator is converted; others are skipped with `continue`. -/
def key32 (v : Validator) : Bool :=
  v.PubKey.length = 32

/-- Embeds `ToCometBFTValidators` of validators.go: inline the active filter
and descending sort, skip validators whose public key is not 32 bytes, and
map the rest to updates carrying the STORED `Power` field. -/
def ToCometBFTValidators (vs : ValidatorSet) : List ValidatorUpdate :=
  ((((vs.validators.filter (activePred vs.minStake)).insertionSort stakeGE).filter
    key32).map toUpdate)

/-- Embeds the update list computed by `RotateValidators` of validators.go:
first every stored power is recomputed from stake, the active validators are
copied out, the copy is sorted and truncated only when it exceeds
`maxValidators`, and finally validators with non-32-byte keys are skipped.
The function always returns a nil error in the source, so the model returns
the list directly. -/
def RotateValidatorsUpdates (vs : ValidatorSet) : List ValidatorUpdate :=
  let recomputed := vs.validators.map (fun v => { v with Power := calculatePower v.Stake })
  let validatorsCopy := recomputed.filter (activePred vs.minStake)
  let bounded :=
    if vs.maxValidators < validatorsCopy.length then
      (validatorsCopy.insertionSort stakeGE).take vs.maxValidators
    else validatorsCopy
  (bounded.filter key32).map toUpdate

/-- Lookup in the Go maps `currentMap` / `updatesMap` built in
`hasValidatorChanges`: successive insertion means the LAST entry with a given
key wins, i.e. `find?` over the reversed entry list. -/
def lookupPower (l : List ValidatorUpdate) (k : List Nat) : Option Int :=
  (l.reverse.find? (fun u => u.PubKeyBytes = k)).map (fun u => u.Power)

/-- Embeds `hasValidatorChanges` of abci_app.go: report a change when the two
lists differ in length, when some key of `updates` is new or carries a
different power than in `current`, or when some key of `current` is absent
from `updates`.  The Go loops range over the de-duplicated maps; iterating
over the entry lists while reading powers through the maps yields the same
boolean. -/
def hasValidatorChanges (current updates : List ValidatorUpdate) : Bool :=
  if current.length = updates.length then
    (updates.any (fun u =>
      match lookupPower current u.PubKeyBytes, lookupPower updates u.PubKeyBytes with
      | none, _ => true
      | some cp, some up => cp ≠ up
      | some _, none => false)) ||
    (current.any (fun c => (lookupPower updates c.PubKeyBytes).isNone))
  else true

/-- Embeds the validator-rotation fragment of `FinalizeBlock` in abci_app.go
(the branch guarded by `req.Height > 0 && req.Height%100 == 0`): with at most
one current validator no updates are returned; otherwise `RotateValidators`
is called and its updates are attached only when non-empty and
`hasValidatorChanges` holds against `ToCometBFTValidators` of the SAME
current set. -/
def finalizeValidatorUpdates (height : Int) (vs : ValidatorSet) : List ValidatorUpdate :=
  if 0 < height ∧ height % 100 = 0 then
    let currentValidators := ToCometBFTValidators vs
    if currentValidators.length ≤ 1 then []
    else
      let updates := RotateValidatorsUpdates vs
      if 0 < updates.length then
        if hasValidatorChanges currentValidators updates then updates else []
      else []
  else []

/-- Set equality with per-key power equality between two emitted validator
snapshots, the relation the specification uses to state when a delta must be
empty ("set equality with per-key power equality"). -/
def sameSnapshot (a b : List ValidatorUpdate) : Bool :=
  (a.all (fun u => lookupPower b u.PubKeyBytes = some u.Power)) &&
  (b.all (fun u => lookupPower a u.PubKeyBytes = some u.Power))

/-- Embeds `findLowestStakeValidator` of validators.go. -/
def findLowestStakeValidator (l : List Validator) : Option Validator :=
  l.foldl
    (fun lowest v =>
      match lowest with
      | none => some v
      | some w => if v.Stake < w.Stake then some v else some w)
    none

/-- Embeds `RegisterValidator` of validators.go (the set mutation; the
`SaveValidators` call touches only storage and is treated separately by the
lock-trace model below). -/
def RegisterValidator (vs : ValidatorSet) (address : String) (pubKey : List Nat)
    (initialStake : Int) : Except String ValidatorSet :=
  if (mapGet vs.validators address).isSome then
    .error "validador ya registrado"
  else if initialStake < vs.minStake then
    .error "stake insuficiente"
  else
    let afterEvict :=
      if vs.maxValidators ≤ vs.validators.length then
        match findLowestStakeValidator vs.validators with
        | none => none
        | some lowest =>
          if initialStake ≤ lowest.Stake then none
          else some (mapDelete vs.validators lowest.Address)
      else some vs.validators
    match afterEvict with
    | none => .error "maximo de validadores alcanzado"
    | some l =>
      let validator : Validator :=
        { Address := address
          PubKey := pubKey
          Stake := initialStake
          Power := calculatePower initialStake
          Jailed := false
          JailedUntil := 0
          MissedBlocks := 0 }
      .ok { vs with validators := mapSet l validator }

/-- Embeds `Stake` of validators.go. -/
def Stake (vs : ValidatorSet) (address : String) (amount : Int) :
    Except String ValidatorSet :=
  match mapGet vs.validators address with
  | none => .error "validador no encontrado"
  | some validator =>
    if validator.Jailed then .error "validador en jail"
    else
      let v' := { validator with
                  Stake := validator.Stake + amount
                  Power := calculatePower (validator.Stake + amount) }
      .ok { vs with validators := mapSet vs.validators v' }

/-- Embeds `Unstake` of validators.go: the removal branch after the update is
kept even though the preceding minimum check makes it unreachable. -/
def Unstake (vs : ValidatorSet) (address : String) (amount : Int) :
    Except String ValidatorSet :=
  match mapGet vs.validators address with
  | none => .error "validador no encontrado"
  | some validator =>
    if validator.Jailed then .error "validador en jail"
    else
      let newStake := validator.Stake - amount
      if newStake < vs.minStake then .error "quedaria bajo el minimo"
      else
        let v' := { validator with
                    Stake := newStake
                    Power := calculatePower newStake }
        let l := mapSet vs.validators v'
        let l' := if v'.Stake < vs.minStake then mapDelete l address else l
        .ok { vs with validators := l' }

/-- Embeds `Slash` of validators.go: reduce stake by
`stake * slashPercent / 100`, recompute power, jail until `now + duration`,
and remove the validator when the remaining stake drops below the minimum. -/
def Slash (vs : ValidatorSet) (address : String) (slashPercent : Int)
    (now jailDuration : Int) : Except String ValidatorSet :=
  match mapGet vs.validators address with
  | none => .error "validador no encontrado"
  | some validator =>
    let slashAmount := Int.ediv (validator.Stake * slashPercent) 100
    let newStake := validator.Stake - slashAmount
    let v' := { validator with
                Stake := newStake
                Power := calculatePower newStake
                Jailed := true
                JailedUntil := now + jailDuration }
    let l := mapSet vs.validators v'
    let l' := if v'.Stake < vs.minStake then mapDelete l address else l
    .ok { vs with validators := l' }

/-- Embeds `Unjail` of validators.go. -/
def Unjail (vs : ValidatorSet) (address : String) (now : Int) :
    Except String ValidatorSet :=
  match mapGet vs.validators address with
  | none => .error "validador no encontrado"
  | some validator =>
    if !validator.Jailed then .error "validador no esta en jail"
    else if now < validator.JailedUntil then .error "aun en jail"
    else
      let v' := { validator with
                  Jailed := false
                  JailedUntil := 0
                  MissedBlocks := 0 }
      .ok { vs with validators := mapSet vs.validators v' }

/-- Embeds the `GenesisValidator` struct of validators.go. -/
structure GenesisValidator where
  Address : String
  PubKey : List Nat
  Stake : Int
deriving DecidableEq

/-- Embeds the set mutation of `InitializeGenesisValidators` of
validators.go: each genesis validator is inserted with power recomputed from
its stake. -/
def InitializeGenesisValidators (vs : ValidatorSet)
    (genesisValidators : List GenesisValidator) : ValidatorSet :=
  let insertGenesis := fun (l : List Validator) (gv : GenesisValidator) =>
    mapSet l
      { Address := gv.Address
        PubKey := gv.PubKey
        Stake := gv.Stake
        Power := calculatePower gv.Stake
        Jailed := false
        JailedUntil := 0
        MissedBlocks := 0 }
  { vs with validators := genesisValidators.foldl insertGenesis vs.validators }

/-- Embeds `LoadValidators` of validators.go: the persisted JSON list is
decoded and installed verbatim — in particular the stored `Power` field is
TRUSTED, not recomputed from stake.  Duplicate addresses in the decoded list
overwrite like the Go map insertion loop. -/
def LoadValidators (vs : ValidatorSet) (decoded : List Validator) : ValidatorSet :=
  { vs with validators := decoded.foldl mapSet [] }

/-- Embeds `NewValidatorSet` of validators.go. -/
def NewValidatorSet (minStake : Int) (maxValidators : Nat) : ValidatorSet :=
  { validators := [], minStake := minStake, maxValidators := maxValidators }

/-- The validator-set states reachable through the in-memory mutation
operations of validators.go, starting from a fresh set. -/
inductive Reached : ValidatorSet → Prop where
  | new (minStake : Int) (maxValidators : Nat) :
      Reached (NewValidatorSet minStake maxValidators)
  | register {vs vs' : ValidatorSet} {a : String} {pk : List Nat} {s : Int} :
      Reached vs → RegisterValidator vs a pk s = .ok vs' → Reached vs'
  | stake {vs vs' : ValidatorSet} {a : String} {amt : Int} :
      Reached vs → Stake vs a amt = .ok vs' → Reached vs'
  | unstake {vs vs' : ValidatorSet} {a : String} {amt : Int} :
      Reached vs → Unstake vs a amt = .ok vs' → Reached vs'
  | slash {vs vs' : ValidatorSet} {a : String} {p now d : Int} :
      Reached vs → Slash vs a p now d = .ok vs' → Reached vs'
  | unjail {vs vs' : ValidatorSet} {a : String} {now : Int} :
      Reached vs → Unjail vs a now = .ok vs' → Reached vs'
  | genesis {vs : ValidatorSet} {gvs : List GenesisValidator} :
      Reached vs → Reached (InitializeGenesisValidators vs gvs)

/-- Invariant: every stored power was computed by `calculatePower` from the
stored stake. -/
def PowerInv (vs : ValidatorSet) : Prop :=
  ∀ v ∈ vs.validators, v.Power = calculatePower v.Stake

instance (vs : ValidatorSet) : Decidable (PowerInv vs) :=
  decidable_of_iff (∀ v ∈ vs.validators, v.Power = calculatePower v.Stake) Iff.rfl

/-! Transactions, admission validation and queries (abci_app.go). -/

/-- Embeds the `Transaction` struct shared by the consensus and execution
packages: `Value` and `GasPrice` are decimal strings, `Data` and `Signature`
byte slices. -/
structure Transaction where
  Hash : String
  From : String
  To : String
  Value : String
  Data : List Nat
  GasLimit : Nat
  GasPrice : String
  Nonce : Nat
  Signature : List Nat
deriving DecidableEq

/-- Embeds the subset of `AccountState` (execution package) read by
validation and queries. -/
structure AccountState where
  Address : String
  Balance : String
  Nonce : Nat
deriving DecidableEq

/-- Embeds `big.Int.SetString` with base 10 as used throughout abci_app.go:
an optional sign followed by at least one decimal digit. -/
def decDigitsVal (l : List Char) : Option Nat :=
  if l = [] then none
  else
    l.foldl
      (fun acc c => acc.bind (fun n => if c.isDigit then some (n * 10 + (c.toNat - 48)) else none))
      (some 0)

/-- Parses a Go base-10 `big.Int` literal. -/
def bigIntSetString (s : String) : Option Int :=
  match s.data with
  | [] => none
  | '+' :: rest => (decDigitsVal rest).map (fun n => (n : Int))
  | '-' :: rest => (decDigitsVal rest).map (fun n => -(n : Int))
  | l => (decDigitsVal l).map (fun n => (n : Int))

/-- Embeds `has0xPrefix` of go-ethereum common: the string starts with `0x`
or `0X`. -/
def has0xPrefix (s : String) : Bool :=
  match s.data with
  | '0' :: c :: _ => c = 'x' || c = 'X'
  | _ => false

/-- Hexadecimal digit test, as in go-ethereum `isHexCharacter`. -/
def isHexChar (c : Char) : Bool :=
  c.isDigit || (decide ('a' ≤ c) && decide (c ≤ 'f')) || (decide ('A' ≤ c) && decide (c ≤ 'F'))

/-- Embeds `common.IsHexAddress`: after stripping an optional `0x` prefix the
string must be 40 hexadecimal characters. -/
def IsHexAddress (s : String) : Bool :=
  let t := if has0xPrefix s then s.drop 2 else s
  t.length = 40 && t.data.all isHexChar

/-- The admission error classes raised by `validateTransaction` and
`validateTransactionComplete` of abci_app.go, in source order. -/
inductive TxError where
  | emptyFrom
  | invalidFrom
  | invalidTo
  | missingHash
  | invalidNonce
  | accountNotFound
  | invalidValue
  | invalidBalance
  | invalidGasPrice
  | insufficientBalance
  | missingSignature
  | invalidSignature
  | hashCalcFailed
  | hashMismatch
deriving DecidableEq

/-- Embeds `validateTransaction` of abci_app.go: non-empty hex `From`, and a
hex `To` whenever `To` is non-empty. -/
def validateTransaction (tx : Transaction) : Option TxError :=
  if tx.From = "" then some .emptyFrom
  else if !IsHexAddress tx.From then some .invalidFrom
  else if tx.To ≠ "" && !IsHexAddress tx.To then some .invalidTo
  else none

/-- Embeds the nonce section of `validateTransactionComplete`: the check runs
only when `GetState` returned an account (`err == nil && accountState != nil`),
and rejects `tx.Nonce < accountState.Nonce`. -/
def validateNonce (tx : Transaction) (accountState : Option AccountState) : Option TxError :=
  match accountState with
  | some acct => if tx.Nonce < acct.Nonce then some .invalidNonce else none
  | none => none

/-- Embeds Go's `int64(x)` conversion of a `uint64` value: two's-complement
wrap, negative for inputs at or above `2^63`. -/
def toInt64 (n : Nat) : Int :=
  if n % 2 ^ 64 < 2 ^ 63 then ((n % 2 ^ 64 : Nat) : Int)
  else ((n % 2 ^ 64 : Nat) : Int) - 2 ^ 64

/-- Embeds the balance section of `validateTransactionComplete` of
abci_app.go.  CRITICAL to claim C4: the whole section is guarded by
`tx.Value != "" && tx.Value != "0"`, so a zero-value transaction is never
checked against its gas cost.  The gas cost is
`gasPrice * big.NewInt(int64(tx.GasLimit))` in the source — the `uint64`
gas limit goes through a WRAPPING `int64` conversion (`toInt64`), so a gas
limit at or above `2^63` contributes a negative cost. -/
def validateBalance (tx : Transaction) (accountState : Option AccountState) : Option TxError :=
  if tx.Value ≠ "" && tx.Value ≠ "0" then
    match accountState with
    | none => some .accountNotFound
    | some acct =>
      match bigIntSetString tx.Value with
      | none => some .invalidValue
      | some value =>
        match bigIntSetString acct.Balance with
        | none => some .invalidBalance
        | some balance =>
          match bigIntSetString tx.GasPrice with
          | none => some .invalidGasPrice
          | some gasPrice =>
            let gasCost := gasPrice * toInt64 tx.GasLimit
            let totalCost := value + gasCost
            if balance < totalCost then some .insufficientBalance else none
  else none

/-- Embeds the signature section of `validateTransactionComplete`.  The calls
into the repository's crypto signer (`VerifyTransactionSignature`,
`CalculateTransactionHash`) are not under src/ and enter as oracle arguments:
`verifySig` is whether verification succeeded, `calcHash` the computed hash
(none for a computation error). -/
def validateSignatureSection (tx : Transaction) (verifySig : Bool)
    (calcHash : Option String) : Option TxError :=
  if tx.Signature.length = 0 then some .missingSignature
  else if !verifySig then some .invalidSignature
  else
    match calcHash with
    | none => some .hashCalcFailed
    | some h => if tx.Hash ≠ h then some .hashMismatch else none

/-- Embeds `validateTransactionComplete` of abci_app.go: basic checks, hash
presence, nonce, balance, then signature — first failure wins. -/
def validateTransactionComplete (tx : Transaction) (accountState : Option AccountState)
    (verifySig : Bool) (calcHash : Option String) : Option TxError :=
  match validateTransaction tx with
  | some e => some e
  | none =>
    if tx.Hash = "" then some .missingHash
    else
      match validateNonce tx accountState with
      | some e => some e
      | none =>
        match validateBalance tx accountState with
        | some e => some e
        | none => validateSignatureSection tx verifySig calcHash

/-- Embeds `CheckTx` of abci_app.go: code 1 on decode failure (JSON decoding
is external, so the decode result is the argument), code 2 when
`validateTransactionComplete` rejects, code 0 otherwise. -/
def CheckTxCode (decoded : Option Transaction) (accountState : Option AccountState)
    (verifySig : Bool) (calcHash : Option String) : Nat :=
  match decoded with
  | none => 1
  | some tx =>
    match validateTransactionComplete tx accountState verifySig calcHash with
    | some _ => 2
    | none => 0

/-- The branches of the `switch` in `Query` of abci_app.go. -/
inductive QueryBranch where
  | height
  | balance
  | account
  | tx
  | block
  | unknown
deriving DecidableEq

/-- Embeds the path dispatch of `Query` in abci_app.go, byte for byte: note
the account case compares the 7-character slice `path[:7]` against the
8-character literal. -/
def queryDispatch (path : String) : QueryBranch :=
  if path = "height" then .height
  else if 8 < path.length && path.take 8 = "balance/" then .balance
  else if 7 < path.length && path.take 7 = "account/" then .account
  else if 3 < path.length && path.take 3 = "tx/" then .tx
  else if 6 < path.length && path.take 6 = "block/" then .block
  else .unknown

/-- A read-only view of what `Query` consults: the execution accounts (via
`executor.GetState`, which succeeds for every address while the executor is
running) and the stored transactions and blocks. -/
structure QueryApp where
  accounts : List (String × AccountState)
  storedTxs : List String
  storedBlocks : List Nat
deriving DecidableEq

/-- Embeds the response code of `Query` in abci_app.go per branch: `height`,
`balance` and `account` answer from the live state (code 0), `tx` and
`block` answer 0 when found and 1 otherwise, and an unrecognized path
answers 1. -/
def queryCode (app : QueryApp) (path : String) : Nat :=
  match queryDispatch path with
  | .height => 0
  | .balance => 0
  | .account => 0
  | .tx => if app.storedTxs.contains (path.drop 3) then 0 else 1
  | .block =>
    let h := (decDigitsVal (path.drop 6).data).getD 0
    if app.storedBlocks.contains h then 0 else 1
  | .unknown => 1

/-! The EVM executor (ExecuteTransaction / DeployContract, execution
package). -/

/-- Hexadecimal value of a character (lower or upper case). -/
def hexDigitVal (c : Char) : Option Nat :=
  if c.isDigit then some (c.toNat - 48)
  else if decide ('a' ≤ c) && decide (c ≤ 'f') then some (c.toNat - 87)
  else if decide ('A' ≤ c) && decide (c ≤ 'F') then some (c.toNat - 55)
  else none

/-- Numeric value of a hex string; faithful for the valid-hex inputs the
claims exercise. -/
def hexVal (l : List Char) : Nat :=
  l.foldl (fun acc c => acc * 16 + ((hexDigitVal c).getD 0)) 0

/-- Embeds `common.HexToAddress`: strip an optional `0x`, decode, keep the
rightmost 20 bytes.  The empty string maps to the zero address. -/
def HexToAddress (s : String) : Nat :=
  (hexVal ((if has0xPrefix s then s.drop 2 else s).data)) % (2 ^ 160)

/-- Embeds the `core.Message` built by `ExecuteTransaction`. -/
structure Msg where
  From : Nat
  To : Option Nat
  Nonce : Nat
  Value : Int
  GasLimit : Nat
  GasPrice : Int
  Data : List Nat
deriving DecidableEq

/-- Embeds the message construction of `ExecuteTransaction` (execution
package): `Value` and `GasPrice` must parse, `From` and `To` go through
`common.HexToAddress`, and — decisive for claim C3 — `To` is ALWAYS a
non-nil pointer (`To: &to`), even when `tx.To` is the empty string. -/
def executeTransactionMsg (tx : Transaction) : Option Msg :=
  match bigIntSetString tx.Value with
  | none => none
  | some value =>
    match bigIntSetString tx.GasPrice with
    | none => none
    | some gasPrice =>
      some
        { From := HexToAddress tx.From
          To := some (HexToAddress tx.To)
          Nonce := tx.Nonce
          Value := value
          GasLimit := tx.GasLimit
          GasPrice := gasPrice
          Data := tx.Data }

/-- Embeds the `ExecutionResult` struct (execution package), restricted to
the fields the claims read. -/
structure ExecutionResult where
  Success : Bool
  GasUsed : Nat
deriving DecidableEq

/-- Minimal EVM world state: per-address nonces and deployed code. -/
structure EVMState where
  nonces : List (Nat × Nat)
  code : List (Nat × List Nat)
deriving DecidableEq

/-- Deployed code at an address, if any. -/
def codeAt (st : EVMState) (addr : Nat) : Option (List Nat) :=
  (st.code.find? (fun p => p.1 = addr)).map (fun p => p.2)

/-- Embeds `stateDB.GetNonce`: zero for fresh accounts. -/
def nonceOf (st : EVMState) (addr : Nat) : Nat :=
  ((st.nonces.find? (fun p => p.1 = addr)).map (fun p => p.2)).getD 0

/-- Modelled from the spec: `crypto.CreateAddress` (go-ethereum, outside this
repository) derives the contract address deterministically from
`(from, nonce)`; the Keccak-RLP derivation is abstracted as an injective
pairing. -/
def CreateAddress (sender nonce : Nat) : Nat :=
  (sender + 1) * 2 ^ 64 + nonce

/-- Modelled from the spec: `core.ApplyMessage` (go-ethereum, outside this
repository) performs contract creation — deploying `msg.Data` at
`CreateAddress(msg.From, msg.Nonce)` — exactly when `msg.To` is nil, and
otherwise runs a plain call, which deploys no code; a well-funded call with
sufficient gas succeeds using the intrinsic 21000 gas. -/
def ApplyMessage (st : EVMState) (msg : Msg) : ExecutionResult × EVMState :=
  match msg.To with
  | none =>
    ({ Success := true, GasUsed := 53000 },
     { st with code := (CreateAddress msg.From msg.Nonce, msg.Data) :: st.code })
  | some _ => ({ Success := true, GasUsed := 21000 }, st)

/-- Embeds `ExecuteTransaction` of the execution package: build the message
(`none` models the parse-error returns) and run it through the EVM. -/
def ExecuteTransactionModel (st : EVMState) (tx : Transaction) :
    Option (ExecutionResult × EVMState) :=
  (executeTransactionMsg tx).map (fun msg => ApplyMessage st msg)

/-- Embeds `DeployContract` of the execution package: read the sender's
nonce, build a transaction whose `To` is the EMPTY string, execute it, and
on success return `crypto.CreateAddress(from, nonce)` computed with the
pre-execution nonce.  (`fromA` stands for the Go parameter `from`, a Lean
keyword.)  Errors and failed executions return `none`. -/
def DeployContract (st : EVMState) (fromA : String) (code constructorArgs : List Nat)
    (gasLimit : Nat) (gasPrice : String) : Option (Nat × ExecutionResult × EVMState) :=
  let fromAddr := HexToAddress fromA
  let contractData := code ++ constructorArgs
  let nonce := nonceOf st fromAddr
  let tx : Transaction :=
    { Hash := ""
      From := fromA
      To := ""
      Value := "0"
      Data := contractData
      GasLimit := gasLimit
      GasPrice := gasPrice
      Nonce := nonce
      Signature := [] }
  match ExecuteTransactionModel st tx with
  | none => none
  | some (result, st') =>
    if result.Success then some (CreateAddress fromAddr nonce, result, st') else none

/-! The ABCI application lifecycle (abci_app.go): Info, FinalizeBlock,
Commit, and the persistent store they touch. -/

/-- Embeds the `TransactionReceipt` built inside `FinalizeBlock`, restricted
to the fields the claims read. -/
structure TransactionReceipt where
  TransactionHash : String
  BlockNumber : Nat
  GasUsed : Nat
  Status : String
deriving DecidableEq

/-- Embeds the `BlockHeader` struct of the consensus package.  Hash values
are modelled as `Nat` with 0 standing for the all-zero hash / empty parent
string. -/
structure BlockHeader where
  Height : Nat
  Hash : Nat
  ParentHash : Nat
  Timestamp : Int
  ChainID : String
deriving DecidableEq

/-- Embeds the `Block` struct of the consensus package. -/
structure Block where
  Header : BlockHeader
  Transactions : List Transaction
  Receipts : List TransactionReceipt
deriving DecidableEq

/-- The state-metadata record `Commit` serializes under the `state_meta`
key: root, height and app-hash. -/
structure StateMeta where
  root : Nat
  height : Int
  appHash : Nat
deriving DecidableEq

/-- The durable key-value store as the application writes it: the `tx/` and
`block/` namespaces, the state metadata, and the latest committed height.
(`executor.SaveState` inside Commit rewrites the same `state_meta` key just
before Commit's own write; only the final value is modelled.) -/
structure Store where
  txs : List (String × Transaction)
  blocks : List (Nat × Block)
  stateMeta : Option StateMeta
  latestHeight : Option Nat
deriving DecidableEq

/-- A store with nothing persisted yet. -/
def emptyStore : Store :=
  { txs := [], blocks := [], stateMeta := none, latestHeight := none }

/-- Embeds the `AppState` struct of abci_app.go. -/
structure AppState where
  Height : Int
  AppHash : Nat
  Validators : List ValidatorUpdate
deriving DecidableEq

/-- Embeds the in-memory fields of `ABCIApp` the claims read. -/
structure ABCIAppM where
  state : AppState
  currentBlockHeight : Nat
  currentBlockTime : Int
  currentBlockTxs : List Transaction
  currentBlockReceipts : List TransactionReceipt
  chainID : String
deriving DecidableEq

/-- Embeds `NewABCIApp` of abci_app.go: height 0, a 32-byte ZERO app hash and
an empty validator list — the persisted metadata in the store is NOT
consulted. -/
def NewABCIApp (chainID : String) : ABCIAppM :=
  { state := { Height := 0, AppHash := 0, Validators := [] }
    currentBlockHeight := 0
    currentBlockTime := 0
    currentBlockTxs := []
    currentBlockReceipts := []
    chainID := chainID }

/-- Embeds `Info` of abci_app.go: it answers `LastBlockHeight` and
`LastBlockAppHash` straight from the in-memory `app.state`. -/
def Info (app : ABCIAppM) : Int × Nat :=
  (app.state.Height, app.state.AppHash)

/-- Result of the `FinalizeBlock` embedding. -/
structure FinalizeOut where
  app : ABCIAppM
  store : Store
  txResults : List Nat
  validatorUpdates : List ValidatorUpdate
deriving DecidableEq

/-- One iteration of the transaction loop of `FinalizeBlock` in abci_app.go.
`item` is the JSON-decode result of the raw bytes (decoding is external);
`exec` stands for `executor.ExecuteTransaction`, returning `none` for an
error return and an `ExecutionResult` otherwise.  Codes: 1 decode error,
2 invalid, 3 execution error, 4 failed execution, 0 success; only the
success branch persists the transaction (`storage.SaveTransaction`). -/
def finalizeTxStep (exec : Transaction → Option ExecutionResult)
    (acc : ABCIAppM × Store × List Nat) (item : Option Transaction) :
    ABCIAppM × Store × List Nat :=
  let (a, s, rs) := acc
  match item with
  | none => (a, s, rs ++ [1])
  | some tx =>
    match validateTransaction tx with
    | some _ => (a, s, rs ++ [2])
    | none =>
      match exec tx with
      | none => (a, s, rs ++ [3])
      | some result =>
        if result.Success then
          let receipt : TransactionReceipt :=
            { TransactionHash := tx.Hash
              BlockNumber := a.currentBlockHeight
              GasUsed := result.GasUsed
              Status := "success" }
          ({ a with
              currentBlockTxs := a.currentBlockTxs ++ [tx]
              currentBlockReceipts := a.currentBlockReceipts ++ [receipt] },
           { s with txs := (tx.Hash, tx) :: s.txs },
           rs ++ [0])
        else (a, s, rs ++ [4])

/-- Embeds `FinalizeBlock` of abci_app.go: record height and time, reset the
per-block lists, run the transaction loop, and attach rotation updates
(`finalizeValidatorUpdates`) when a validator set is present
(`app.validators != nil`). -/
def FinalizeBlockStep (app : ABCIAppM) (store : Store) (validators : Option ValidatorSet)
    (height : Int) (timeU : Int) (txs : List (Option Transaction))
    (exec : Transaction → Option ExecutionResult) : FinalizeOut :=
  let app0 :=
    { app with
        state := { app.state with Height := height }
        currentBlockHeight := height.toNat
        currentBlockTime := timeU
        currentBlockTxs := []
        currentBlockReceipts := [] }
  let r := txs.foldl (finalizeTxStep exec) (app0, store, [])
  let updates :=
    match validators with
    | some vs => finalizeValidatorUpdates height vs
    | none => []
  { app := r.1, store := r.2.1, txResults := r.2.2, validatorUpdates := updates }

/-- Embeds `Commit` (and its helper `saveBlock`) of abci_app.go.  `stateRoot`
is the value of `GetStateManager().GetRootHash()` and `keccakStateJson` the
value of `crypto.Keccak256(json.Marshal(app.state))` — both computed by
external libraries.  The app hash falls back to the JSON digest exactly when
the root is the zero hash; the state metadata, the assembled block and the
latest height are all persisted here. -/
def CommitStep (app : ABCIAppM) (store : Store) (stateRoot : Nat)
    (keccakStateJson : Nat) : ABCIAppM × Store :=
  let appHash := if stateRoot ≠ 0 then stateRoot else keccakStateJson
  let store1 :=
    { store with stateMeta := some { root := stateRoot, height := app.state.Height, appHash := appHash } }
  let store2 :=
    if 0 < app.currentBlockHeight then
      let parentHash :=
        match store1.blocks.find? (fun p => p.1 = app.currentBlockHeight - 1) with
        | some p => p.2.Header.Hash
        | none => 0
      let block : Block :=
        { Header :=
            { Height := app.currentBlockHeight
              Hash := appHash
              ParentHash := parentHash
              Timestamp := app.currentBlockTime
              ChainID := app.chainID }
          Transactions := app.currentBlockTxs
          Receipts := app.currentBlockReceipts }
      { store1 with
          blocks := (app.currentBlockHeight, block) :: store1.blocks
          latestHeight := some app.currentBlockHeight }
    else store1
  ({ app with state := { app.state with AppHash := appHash } }, store2)

/-! Lock traces of the validator-set operations (validators.go), for the
nested-locking claim C9. -/

/-- The lock-relevant events a validator-set operation performs, in source
order: acquiring/releasing the RWMutex write and read ends, and the point at
which `SaveValidators` is invoked. -/
inductive LockEv where
  | acqW
  | relW
  | acqR
  | relR
  | save
deriving DecidableEq

/-- Lock events of `SaveValidators` itself: it takes the read lock and
releases it on return (`RLock` / deferred `RUnlock`). -/
def saveValidatorsEvents : List LockEv :=
  [.acqR, .relR]

/-- Lock events of `RegisterValidator`: `Lock()` on entry, `SaveValidators`
invoked in the body, `Unlock()` only by `defer` at return. -/
def registerValidatorEvents : List LockEv :=
  [.acqW, .save, .relW]

/-- Lock events of `Stake` (same shape as `RegisterValidator`). -/
def stakeEvents : List LockEv :=
  [.acqW, .save, .relW]

/-- Lock events of `Unstake`. -/
def unstakeEvents : List LockEv :=
  [.acqW, .save, .relW]

/-- Lock events of `Slash`. -/
def slashEvents : List LockEv :=
  [.acqW, .save, .relW]

/-- Lock events of `Unjail`. -/
def unjailEvents : List LockEv :=
  [.acqW, .save, .relW]

/-- Lock events of `InitializeGenesisValidators`: this one alone calls
`vs.mutex.Unlock()` explicitly BEFORE invoking `SaveValidators`. -/
def initializeGenesisValidatorsEvents : List LockEv :=
  [.acqW, .relW, .save]

/-- Whether some `save` event of the trace occurs while the write lock is
still held by the running call. -/
def saveUnderWriteLock (tr : List LockEv) : Bool :=
  (tr.foldl
    (fun acc ev =>
      let (held, bad) := acc
      match ev with
      | .acqW => (held + 1, bad)
      | .relW => (held - 1, bad)
      | .save => (held, bad || decide (0 < held))
      | _ => (held, bad))
    ((0 : Nat), false)).2

/-- Inline the body of `SaveValidators` at each `save` marker, exposing the
read-lock acquisition the saver performs. -/
def expandSaves (tr : List LockEv) : List LockEv :=
  tr.flatMap (fun ev => if ev = .save then saveValidatorsEvents else [ev])

/-- Whether the trace tries to acquire the read lock while the same call
still holds the write lock — with Go's non-reentrant `sync.RWMutex` this is
a self-deadlock. -/
def blocksOnRead (tr : List LockEv) : Bool :=
  (tr.foldl
    (fun acc ev =>
      let (held, bad) := acc
      match ev with
      | .acqW => (held + 1, bad)
      | .relW => (held - 1, bad)
      | .acqR => (held, bad || decide (0 < held))
      | _ => (held, bad))
    ((0 : Nat), false)).2

/-! Concrete sample inputs used by the counterexamples and witnesses. -/

/-- A 32-byte public key. -/
def pkA : List Nat := List.replicate 32 1

/-- Another 32-byte public key. -/
def pkB : List Nat := List.replicate 32 2

/-- A validator with 5 whole coins of stake and a consistent power of 5. -/
def vA : Validator := ⟨"a", pkA, 5 * 10 ^ 18, 5, false, 0, 0⟩

/-- A validator with 20 whole coins of stake and a consistent power of 20. -/
def vB : Validator := ⟨"b", pkB, 20 * 10 ^ 18, 20, false, 0, 0⟩

/-- A two-validator set, both active, well within `maxValidators`. -/
def cvs1 : ValidatorSet := ⟨[vA, vB], 10 ^ 18, 100⟩

/-- A snapshot emitted to the engine before `vA` gained a coin of stake:
`vA` still carries power 4 there. -/
def prev1 : List ValidatorUpdate := [⟨pkA, 4⟩, ⟨pkB, 20⟩]

/-- A set whose `maxValidators` (1) is below its number of active
validators (2). -/
def cvs2 : ValidatorSet := ⟨[vA, vB], 10 ^ 18, 1⟩

/-- A persisted validator record whose stored power (7) disagrees with its
stake (5 coins). -/
def vBad : Validator := ⟨"v", pkA, 5 * 10 ^ 18, 7, false, 0, 0⟩

/-- A valid 20-byte hex address. -/
def addr40 : String := "0x1111111111111111111111111111111111111111"

/-- A ZERO-VALUE transaction whose gas cost alone
(21000 * 10^9 = 2.1 * 10^13) exceeds any small balance. -/
def tx4 : Transaction := ⟨"0xabc", addr40, "", "0", [], 21000, "1000000000", 0, [1]⟩

/-- An account with balance 0. -/
def acct4 : AccountState := ⟨addr40, "0", 0⟩

/-- A transaction carrying value 5 against a balance of 1: the balance check
does run and must reject it. -/
def tx5 : Transaction := ⟨"0xabc", addr40, "", "5", [], 21000, "1000000000", 0, [1]⟩

/-- An account with balance 1. -/
def acct5 : AccountState := ⟨addr40, "1", 0⟩

/-- A transaction with value 1 whose gas limit (9.3e18) is at or above
`2^63`: the source's `int64` conversion wraps it negative. -/
def tx7 : Transaction := ⟨"0xabc", addr40, "", "1", [], 9300000000000000000, "1", 0, [1]⟩

/-- A query view in which the account at `addr40` exists. -/
def sampleQueryApp : QueryApp := ⟨[(addr40, acct4)], [], []⟩

/-- An empty EVM world state. -/
def st0 : EVMState := ⟨[], []⟩

/-- The deployment transaction `DeployContract st0 addr40 [96, 96] [] 1000000 "1"`
builds internally: empty `To`, zero value, nonce 0. -/
def sampleDeployTx : Transaction := ⟨"", addr40, "", "0", [96, 96], 1000000, "1", 0, []⟩

/-- A decodable transaction that the FinalizeBlock loop executes
successfully. -/
def tx6 : Transaction := ⟨"0xdead", addr40, "", "0", [], 21000, "1", 0, []⟩

/-- The validator set produced by registering one validator with 5 coins on
a fresh set (minimum one coin, at most 100 validators). -/
def vsReg : ValidatorSet := ⟨[⟨"a", pkA, 5 * 10 ^ 18, 5, false, 0, 0⟩], 10 ^ 18, 100⟩

/-! Theorems.  Shared helper lemmas come first, then one theorem (plus
counterexample / witness where required) per claim. -/

/-- Recomputing powers is the identity on power-consistent validator
lists. -/
theorem map_recompute_eq_self {l : List Validator}
    (h : ∀ v ∈ l, v.Power = calculatePower v.Stake) :
    l.map (fun v => { v with Power := calculatePower v.Stake }) = l := by
  induction l with
  | nil => rfl
  | cons x xs ih =>
    have hx := h x (List.mem_cons_self x xs)
    have hxs := ih (fun v hv => h v (List.mem_cons_of_mem x hv))
    simp only [List.map_cons, hxs]
    cases x with
    | mk Address PubKey Stake Power Jailed JailedUntil MissedBlocks =>
      simp only at hx
      simp [hx]

/-- The lookup misses exactly when no entry carries the key. -/
theorem lookupPower_eq_none_iff {l : List ValidatorUpdate} {k : List Nat} :
    lookupPower l k = none ↔ ∀ u ∈ l, u.PubKeyBytes ≠ k := by
  unfold lookupPower
  rw [Option.map_eq_none', List.find?_eq_none]
  constructor
  · intro h u hm
    have := h u (List.mem_reverse.mpr hm)
    simpa using this
  · intro h u hm
    have := h u (List.mem_reverse.mp hm)
    simpa using this

/-- With pairwise-distinct keys, `find?` by key returns the member itself. -/
theorem find?_key_of_nodup :
    ∀ (l : List ValidatorUpdate) (u : ValidatorUpdate),
      (l.map ValidatorUpdate.PubKeyBytes).Nodup → u ∈ l →
      l.find? (fun w => w.PubKeyBytes = u.PubKeyBytes) = some u := by
  intro l
  induction l with
  | nil => intro u _ hm; cases hm
  | cons x xs ih =>
    intro u hn hm
    simp only [List.map_cons, List.nodup_cons] at hn
    by_cases hx : x.PubKeyBytes = u.PubKeyBytes
    · have hux : u = x := by
        cases List.mem_cons.mp hm with
        | inl h => exact h
        | inr h =>
          exfalso
          exact hn.1 (hx ▸ List.mem_map_of_mem ValidatorUpdate.PubKeyBytes h)
      subst hux
      simp [List.find?]
    · have hm' : u ∈ xs := by
        cases List.mem_cons.mp hm with
        | inl h => exact absurd (congrArg ValidatorUpdate.PubKeyBytes h.symm) hx
        | inr h => exact h
      have := ih u hn.2 hm'
      simp [List.find?, hx, this]

/-- With pairwise-distinct keys, `lookupPower` returns the member's own
power. -/
theorem lookupPower_mem_nodup {l : List ValidatorUpdate} {u : ValidatorUpdate}
    (hn : (l.map ValidatorUpdate.PubKeyBytes).Nodup) (hm : u ∈ l) :
    lookupPower l u.PubKeyBytes = some u.Power := by
  unfold lookupPower
  have hn' : (l.reverse.map ValidatorUpdate.PubKeyBytes).Nodup := by
    rw [List.map_reverse]
    exact List.nodup_reverse.mpr hn
  rw [find?_key_of_nodup l.reverse u hn' (List.mem_reverse.mpr hm)]
  rfl

/-- Permuting an association list with pairwise-distinct keys does not change
the lookup function. -/
theorem lookupPower_perm {a b : List ValidatorUpdate}
    (hp : a.Perm b) (hn : (a.map ValidatorUpdate.PubKeyBytes).Nodup) (k : List Nat) :
    lookupPower a k = lookupPower b k := by
  have hnb : (b.map ValidatorUpdate.PubKeyBytes).Nodup := ((hp.map _).nodup_iff).mp hn
  cases hla : lookupPower a k with
  | none =>
    have h := lookupPower_eq_none_iff.mp hla
    have : lookupPower b k = none :=
      lookupPower_eq_none_iff.mpr (fun u hm => h u (hp.mem_iff.mpr hm))
    rw [this]
  | some p =>
    unfold lookupPower at hla
    rcases Option.map_eq_some'.mp hla with ⟨u, hu, hup⟩
    have hmu : u ∈ a := List.mem_reverse.mp (List.mem_of_find?_eq_some hu)
    have hk : u.PubKeyBytes = k := by
      have := List.find?_some hu
      simpa using this
    subst hk
    rw [lookupPower_mem_nodup hnb (hp.mem_iff.mp hmu), ← hup]

/-- Two permutation-equal update lists with distinct keys are reported as
unchanged by `hasValidatorChanges`. -/
theorem hasValidatorChanges_of_perm {current updates : List ValidatorUpdate}
    (hp : current.Perm updates)
    (hn : (updates.map ValidatorUpdate.PubKeyBytes).Nodup) :
    hasValidatorChanges current updates = false := by
  have hnc : (current.map ValidatorUpdate.PubKeyBytes).Nodup :=
    ((hp.map _).nodup_iff).mpr hn
  have hlen : current.length = updates.length := hp.length_eq
  have hlook : ∀ k, lookupPower current k = lookupPower updates k :=
    fun k => lookupPower_perm hp hnc k
  unfold hasValidatorChanges
  rw [if_pos hlen]
  apply Bool.or_eq_false_iff.mpr
  constructor
  · rw [List.any_eq_false]
    intro u hm
    rw [hlook u.PubKeyBytes, lookupPower_mem_nodup hn hm]
    simp
  · rw [List.any_eq_false]
    intro c hm
    rw [← hlook c.PubKeyBytes, lookupPower_mem_nodup hnc hm]
    simp

/-- Claim C1, counterexample.  In `cvs1` validator `vA` carries power 5
(after a stake increase), while the set previously emitted to the engine,
`prev1`, still lists it with power 4 — yet the rotation at height 100 emits
an EMPTY update list, because `FinalizeBlock` diffs the freshly computed
snapshot against `ToCometBFTValidators` of the same current state rather
than against the previously emitted set.  The claimed equivalence "empty
iff equal to the previously emitted set" is therefore false. -/
theorem C1_counterexample :
    ¬ ((finalizeValidatorUpdates 100 cvs1 = []) ↔
        sameSnapshot (ToCometBFTValidators cvs1) prev1 = true) := by
  decide

/-- Claim C1, amended.  At a rotation height (positive multiple of 100), if
every stored power is consistent with its stake, the active validators have
pairwise distinct public keys, and at most `maxValidators` validators are
active, then the emitted validator-update list is ALWAYS empty — regardless
of what was previously emitted to the consensus engine.  Stake or jail
changes since the last emission thus never surface in the delta. -/
theorem C1_amended (vs : ValidatorSet) (height : Int)
    (hh : 0 < height) (hmod : height % 100 = 0)
    (hinv : PowerInv vs)
    (hnodup : ((vs.validators.filter (activePred vs.minStake)).map Validator.PubKey).Nodup)
    (hcount : (vs.validators.filter (activePred vs.minStake)).length ≤ vs.maxValidators) :
    finalizeValidatorUpdates height vs = [] := by
  have hrot : RotateValidatorsUpdates vs =
      (((vs.validators.filter (activePred vs.minStake)).filter key32).map toUpdate) := by
    unfold RotateValidatorsUpdates
    dsimp only
    rw [map_recompute_eq_self hinv, if_neg (Nat.not_lt.mpr hcount)]
  have hperm : (ToCometBFTValidators vs).Perm (RotateValidatorsUpdates vs) := by
    rw [hrot]
    unfold ToCometBFTValidators
    exact (((List.perm_insertionSort stakeGE _).filter key32).map toUpdate)
  have hkeys : ((RotateValidatorsUpdates vs).map ValidatorUpdate.PubKeyBytes).Nodup := by
    rw [hrot, List.map_map]
    have hsub : ((vs.validators.filter (activePred vs.minStake)).filter key32).Sublist
        (vs.validators.filter (activePred vs.minStake)) := List.filter_sublist _
    exact List.Nodup.sublist (hsub.map _) hnodup
  unfold finalizeValidatorUpdates
  rw [if_pos ⟨hh, hmod⟩]
  dsimp only
  by_cases hlen : (ToCometBFTValidators vs).length ≤ 1
  · rw [if_pos hlen]
  · rw [if_neg hlen]
    have hul : 0 < (RotateValidatorsUpdates vs).length := by
      rw [← hperm.length_eq]
      omega
    rw [if_pos hul, hasValidatorChanges_of_perm hperm hkeys]
    simp

/-- Witness for the amended claim C1, at the concrete two-validator state
`cvs1` and rotation height 100. -/
theorem C1_amended_witness :
    ((0 : Int) < 100 ∧ (100 : Int) % 100 = 0 ∧ PowerInv cvs1 ∧
      ((cvs1.validators.filter (activePred cvs1.minStake)).map Validator.PubKey).Nodup ∧
      (cvs1.validators.filter (activePred cvs1.minStake)).length ≤ cvs1.maxValidators) ∧
    finalizeValidatorUpdates 100 cvs1 = [] :=
  ⟨⟨by decide, by decide, by decide, by decide, by decide⟩,
   C1_amended cvs1 100 (by decide) (by decide) (by decide) (by decide) (by decide)⟩

/-- Claim C7, counterexample.  With `maxValidators = 1` and two active
validators, `GetActiveValidators` returns BOTH of them: the source contains
no truncation. -/
theorem C7_counterexample :
    (GetActiveValidators cvs2).length = 2 ∧ cvs2.maxValidators = 1 ∧
    ¬ (GetActiveValidators cvs2).length ≤ cvs2.maxValidators := by
  decide

/-- Claim C7, amended.  `GetActiveValidators` returns exactly the validators
with `!jailed` and `stake ≥ min_stake`, sorted by stake descending — WITHOUT
truncation to `max_validators`. -/
theorem C7_amended (vs : ValidatorSet) :
    (GetActiveValidators vs).Perm (vs.validators.filter (activePred vs.minStake)) ∧
    (GetActiveValidators vs).Sorted stakeGE ∧
    ∀ v ∈ GetActiveValidators vs, v.Jailed = false ∧ vs.minStake ≤ v.Stake := by
  refine ⟨List.perm_insertionSort stakeGE _, List.sorted_insertionSort stakeGE _, ?_⟩
  intro v hv
  have hmem : v ∈ vs.validators.filter (activePred vs.minStake) :=
    (List.perm_insertionSort stakeGE _).mem_iff.mp hv
  have hact : activePred vs.minStake v = true := List.of_mem_filter hmem
  unfold activePred at hact
  simp only [Bool.and_eq_true, Bool.not_eq_true', decide_eq_true_eq] at hact
  exact ⟨hact.1, hact.2⟩

/-- Claim C9.  The lock traces of the mutate-and-persist operations of
validators.go: `RegisterValidator`, `Stake`, `Unstake`, `Slash` and `Unjail`
all invoke `SaveValidators` while still holding the write lock (released
only by `defer`), and the inlined saver then attempts to take the read lock
under the write lock — a self-deadlock of Go's non-reentrant `sync.RWMutex`.
Only `InitializeGenesisValidators` releases the write lock first, as the
claim asserts for all six operations. -/
theorem C9_bug :
    saveUnderWriteLock registerValidatorEvents = true ∧
    saveUnderWriteLock stakeEvents = true ∧
    saveUnderWriteLock unstakeEvents = true ∧
    saveUnderWriteLock slashEvents = true ∧
    saveUnderWriteLock unjailEvents = true ∧
    saveUnderWriteLock initializeGenesisValidatorsEvents = false ∧
    blocksOnRead (expandSaves registerValidatorEvents) = true ∧
    blocksOnRead (expandSaves initializeGenesisValidatorsEvents) = false := by
  decide

/-- Claim C3.  Deploying `[96, 96]` from `addr40` on the empty world state
SUCCEEDS and returns address `CreateAddress(addr40, 0)` — but the returned
world state is UNCHANGED and holds no code at that address, because
`ExecuteTransaction` turns the empty `to` into a message whose `To` is the
zero address (a plain call), never a contract creation. -/
theorem C3_bug :
    DeployContract st0 addr40 [96, 96] [] 1000000 "1" =
      some (CreateAddress (HexToAddress addr40) 0, ⟨true, 21000⟩, st0) ∧
    codeAt st0 (CreateAddress (HexToAddress addr40) 0) = none ∧
    (executeTransactionMsg sampleDeployTx).map Msg.To = some (some 0) := by
  decide

/-- Claim C4, counterexample.  The zero-value transaction `tx4` has gas cost
`21000 * 10^9` against balance 0, yet `validateTransactionComplete` admits
it (and `CheckTx` returns code 0): the balance section is skipped entirely
when `Value` is the string "0".  A second admission the claim forbids:
`tx7` carries value 1 and a gas limit of 9.3e18 against balance 0 — its
real cost `1 + 9.3e18` far exceeds the balance, but the source's `int64`
conversion wraps the gas limit negative, so the balance check passes and
the transaction is admitted as well. -/
theorem C4_counterexample :
    bigIntSetString acct4.Balance = some 0 ∧
    bigIntSetString tx4.GasPrice = some 1000000000 ∧
    (0 : Int) < 0 + 1000000000 * (tx4.GasLimit : Int) ∧
    validateTransactionComplete tx4 (some acct4) true (some "0xabc") = none ∧
    CheckTxCode (some tx4) (some acct4) true (some "0xabc") = 0 ∧
    (0 : Int) < 1 + 1 * (tx7.GasLimit : Int) ∧
    toInt64 tx7.GasLimit < 0 ∧
    validateTransactionComplete tx7 (some acct4) true (some "0xabc") = none ∧
    CheckTxCode (some tx7) (some acct4) true (some "0xabc") = 0 := by
  decide

/-- Inserting a power-consistent validator into a power-consistent list
preserves power consistency. -/
theorem powerInvL_mapSet {l : List Validator} {w : Validator}
    (hl : ∀ v ∈ l, v.Power = calculatePower v.Stake)
    (hw : w.Power = calculatePower w.Stake) :
    ∀ v ∈ mapSet l w, v.Power = calculatePower v.Stake := by
  intro v hv
  unfold mapSet at hv
  by_cases hc : l.any (fun x => x.Address = w.Address) = true
  · rw [if_pos hc] at hv
    rcases List.mem_map.mp hv with ⟨x, hx, hvx⟩
    by_cases hax : x.Address = w.Address
    · rw [← hvx, if_pos hax]; exact hw
    · rw [← hvx, if_neg hax]; exact hl x hx
  · rw [if_neg hc] at hv
    rcases List.mem_append.mp hv with h | h
    · exact hl v h
    · rw [List.mem_singleton.mp h]; exact hw

/-- The lookup `mapGet` only returns members. -/
theorem mapGet_mem {l : List Validator} {a : String} {v : Validator}
    (h : mapGet l a = some v) : v ∈ l :=
  List.mem_of_find?_eq_some h

/-- `RegisterValidator` preserves power consistency: the new entry's power
is freshly computed from its stake. -/
theorem powerInv_register {vs vs' : ValidatorSet} {a : String} {pk : List Nat} {s : Int}
    (h : RegisterValidator vs a pk s = .ok vs') (hinv : PowerInv vs) : PowerInv vs' := by
  unfold RegisterValidator at h
  by_cases h1 : (mapGet vs.validators a).isSome = true
  · rw [if_pos h1] at h; exact Except.noConfusion h
  · rw [if_neg h1] at h
    by_cases h2 : s < vs.minStake
    · rw [if_pos h2] at h; exact Except.noConfusion h
    · rw [if_neg h2] at h
      dsimp only at h
      by_cases h3 : vs.maxValidators ≤ vs.validators.length
      · rw [if_pos h3] at h
        cases hlow : findLowestStakeValidator vs.validators with
        | none => rw [hlow] at h; exact Except.noConfusion h
        | some lowest =>
          rw [hlow] at h
          dsimp only at h
          by_cases h4 : s ≤ lowest.Stake
          · rw [if_pos h4] at h; exact Except.noConfusion h
          · rw [if_neg h4] at h
            dsimp only at h
            rw [← Except.ok.inj h]
            intro v hv
            dsimp only at hv
            refine powerInvL_mapSet ?_ rfl v hv
            intro x hx
            exact hinv x (List.mem_of_mem_filter hx)
      · rw [if_neg h3] at h
        dsimp only at h
        rw [← Except.ok.inj h]
        intro v hv
        dsimp only at hv
        exact powerInvL_mapSet hinv rfl v hv

/-- `Stake` preserves power consistency. -/
theorem powerInv_stake {vs vs' : ValidatorSet} {a : String} {amt : Int}
    (h : Stake vs a amt = .ok vs') (hinv : PowerInv vs) : PowerInv vs' := by
  unfold Stake at h
  cases heq : mapGet vs.validators a with
  | none => rw [heq] at h; exact Except.noConfusion h
  | some validator =>
    rw [heq] at h
    dsimp only at h
    by_cases hj : validator.Jailed = true
    · rw [if_pos hj] at h; exact Except.noConfusion h
    · rw [if_neg hj] at h
      rw [← Except.ok.inj h]
      intro v hv
      dsimp only at hv
      exact powerInvL_mapSet hinv rfl v hv

/-- `Unstake` preserves power consistency. -/
theorem powerInv_unstake {vs vs' : ValidatorSet} {a : String} {amt : Int}
    (h : Unstake vs a amt = .ok vs') (hinv : PowerInv vs) : PowerInv vs' := by
  unfold Unstake at h
  cases heq : mapGet vs.validators a with
  | none => rw [heq] at h; exact Except.noConfusion h
  | some validator =>
    rw [heq] at h
    dsimp only at h
    by_cases hj : validator.Jailed = true
    · rw [if_pos hj] at h; exact Except.noConfusion h
    · rw [if_neg hj] at h
      by_cases hmin : validator.Stake - amt < vs.minStake
      · rw [if_pos hmin] at h; exact Except.noConfusion h
      · rw [if_neg hmin] at h
        rw [← Except.ok.inj h]
        intro v hv
        dsimp only at hv
        split at hv
        · exact powerInvL_mapSet hinv rfl v (List.mem_of_mem_filter hv)
        · exact powerInvL_mapSet hinv rfl v hv

/-- `Slash` preserves power consistency. -/
theorem powerInv_slash {vs vs' : ValidatorSet} {a : String} {p now d : Int}
    (h : Slash vs a p now d = .ok vs') (hinv : PowerInv vs) : PowerInv vs' := by
  unfold Slash at h
  cases heq : mapGet vs.validators a with
  | none => rw [heq] at h; exact Except.noConfusion h
  | some validator =>
    rw [heq] at h
    dsimp only at h
    rw [← Except.ok.inj h]
    intro v hv
    dsimp only at hv
    split at hv
    · exact powerInvL_mapSet hinv rfl v (List.mem_of_mem_filter hv)
    · exact powerInvL_mapSet hinv rfl v hv

/-- `Unjail` preserves power consistency: it changes neither stake nor
power. -/
theorem powerInv_unjail {vs vs' : ValidatorSet} {a : String} {now : Int}
    (h : Unjail vs a now = .ok vs') (hinv : PowerInv vs) : PowerInv vs' := by
  unfold Unjail at h
  cases heq : mapGet vs.validators a with
  | none => rw [heq] at h; exact Except.noConfusion h
  | some validator =>
    rw [heq] at h
    dsimp only at h
    by_cases hj : (!validator.Jailed) = true
    · rw [if_pos hj] at h; exact Except.noConfusion h
    · rw [if_neg hj] at h
      by_cases ht : now < validator.JailedUntil
      · rw [if_pos ht] at h; exact Except.noConfusion h
      · rw [if_neg ht] at h
        rw [← Except.ok.inj h]
        intro v hv
        dsimp only at hv
        refine powerInvL_mapSet hinv ?_ v hv
        exact hinv validator (mapGet_mem heq)


/-- The genesis fold preserves power consistency. -/
theorem powerInvL_foldl_genesis :
    ∀ (gvs : List GenesisValidator) (l : List Validator),
      (∀ v ∈ l, v.Power = calculatePower v.Stake) →
      ∀ v ∈ gvs.foldl
        (fun acc gv =>
          mapSet acc
            { Address := gv.Address, PubKey := gv.PubKey, Stake := gv.Stake,
              Power := calculatePower gv.Stake, Jailed := false,
              JailedUntil := 0, MissedBlocks := 0 }) l,
      v.Power = calculatePower v.Stake := by
  intro gvs
  induction gvs with
  | nil => intro l hl; simpa using hl
  | cons g gs ih =>
    intro l hl
    simp only [List.foldl_cons]
    exact ih _ (powerInvL_mapSet hl rfl)

/-- `InitializeGenesisValidators` preserves power consistency. -/
theorem powerInv_genesis {vs : ValidatorSet} {gvs : List GenesisValidator}
    (hinv : PowerInv vs) : PowerInv (InitializeGenesisValidators vs gvs) := by
  intro v hv
  unfold InitializeGenesisValidators at hv
  dsimp only at hv
  exact powerInvL_foldl_genesis gvs vs.validators hinv v hv

/-- Every state reachable through the in-memory operations is
power-consistent. -/
theorem reached_powerInv {vs : ValidatorSet} (h : Reached vs) : PowerInv vs := by
  induction h with
  | new minStake maxValidators => intro v hv; simp [NewValidatorSet] at hv
  | register hr hok ih => exact powerInv_register hok ih
  | stake hr hok ih => exact powerInv_stake hok ih
  | unstake hr hok ih => exact powerInv_unstake hok ih
  | slash hr hok ih => exact powerInv_slash hok ih
  | unjail hr hok ih => exact powerInv_unjail hok ih
  | genesis hr ih => exact powerInv_genesis ih

/-- On non-negative stakes the source's `calculatePower` coincides with the
specification's clamp. -/
theorem calculatePower_eq_clampPower {s : Int} (hs : 0 ≤ s) :
    calculatePower s = clampPower s := by
  unfold calculatePower clampPower
  have h0 : 0 ≤ Int.ediv s (10 ^ 18) := Int.ediv_nonneg hs (by norm_num)
  dsimp only
  split <;> omega

/-- Claim C8, counterexample.  `LoadValidators` installs the persisted list
verbatim: loading a record whose stored power (7) disagrees with its stake
(5 whole coins, so clamped power 5) produces a state whose ACTIVE SNAPSHOT
violates the claimed invariant. -/
theorem C8_counterexample :
    ¬ (∀ v ∈ GetActiveValidators (LoadValidators (NewValidatorSet (10 ^ 18) 100) [vBad]),
        v.Power = clampPower v.Stake ∧ v.Jailed = false ∧ (10 ^ 18 : Int) ≤ v.Stake) := by
  decide

/-- Claim C8, amended.  In every state reachable through the in-memory
mutation operations (with a non-negative minimum stake), every validator of
the active snapshot satisfies `power = clamp(stake / 10^18, 0, 2^30)`,
`!jailed` and `stake ≥ min_stake`.  States installed by `LoadValidators`
are NOT covered: the loader trusts the persisted powers. -/
theorem C8_amended {vs : ValidatorSet} (hr : Reached vs) (hmin : 0 ≤ vs.minStake) :
    ∀ v ∈ GetActiveValidators vs,
      v.Power = clampPower v.Stake ∧ v.Jailed = false ∧ vs.minStake ≤ v.Stake := by
  intro v hv
  unfold GetActiveValidators at hv
  have hmem : v ∈ vs.validators.filter (activePred vs.minStake) :=
    (List.perm_insertionSort stakeGE _).mem_iff.mp hv
  have hvl : v ∈ vs.validators := List.mem_of_mem_filter hmem
  have hact : activePred vs.minStake v = true := List.of_mem_filter hmem
  unfold activePred at hact
  simp only [Bool.and_eq_true, Bool.not_eq_true', decide_eq_true_eq] at hact
  refine ⟨?_, hact.1, hact.2⟩
  rw [reached_powerInv hr v hvl,
    calculatePower_eq_clampPower (le_trans hmin hact.2)]

/-- Witness for the amended claim C8: the state reached by registering one
5-coin validator on a fresh set. -/
theorem C8_amended_witness :
    ((0 : Int) ≤ vsReg.minStake) ∧
    (∀ v ∈ GetActiveValidators vsReg,
      v.Power = clampPower v.Stake ∧ v.Jailed = false ∧ vsReg.minStake ≤ v.Stake) :=
  ⟨by decide,
   C8_amended
     (Reached.register (Reached.new (10 ^ 18) 100)
       (show RegisterValidator (NewValidatorSet (10 ^ 18) 100) "a" pkA (5 * 10 ^ 18) =
          Except.ok vsReg by rfl))
     (by decide)⟩

/-- Claim C4, amended.  `validateTransactionComplete` raises
`InsufficientBalance` exactly from the branch guarded by a NON-zero,
non-empty `Value`: whenever the basic checks pass, the nonce is current,
all three decimal fields parse, and
`balance < value + gasPrice * int64(gasLimit)` — with the gas limit taken
through the source's WRAPPING `int64` conversion — the transaction is
rejected with code 2.  Per the counterexample, a zero-value transaction
bypasses this check entirely, and a gas limit at or above `2^63` wraps
negative, admitting transactions whose real cost exceeds the balance. -/
theorem C4_amended (tx : Transaction) (acct : AccountState) (verifySig : Bool)
    (calcHash : Option String) (v b g : Int)
    (hv1 : tx.Value ≠ "") (hv2 : tx.Value ≠ "0")
    (hbasic : validateTransaction tx = none) (hhash : tx.Hash ≠ "")
    (hnonce : ¬ tx.Nonce < acct.Nonce)
    (hpv : bigIntSetString tx.Value = some v)
    (hpb : bigIntSetString acct.Balance = some b)
    (hpg : bigIntSetString tx.GasPrice = some g)
    (hlt : b < v + g * toInt64 tx.GasLimit) :
    validateTransactionComplete tx (some acct) verifySig calcHash =
      some TxError.insufficientBalance ∧
    CheckTxCode (some tx) (some acct) verifySig calcHash = 2 := by
  have hbal : validateBalance tx (some acct) = some TxError.insufficientBalance := by
    unfold validateBalance
    rw [if_pos (by simp [hv1, hv2])]
    dsimp only
    rw [hpv]
    dsimp only
    rw [hpb]
    dsimp only
    rw [hpg]
    dsimp only
    rw [if_pos hlt]
  have hnonceEq : validateNonce tx (some acct) = none := by
    unfold validateNonce
    dsimp only
    rw [if_neg hnonce]
  have hmain : validateTransactionComplete tx (some acct) verifySig calcHash =
      some TxError.insufficientBalance := by
    unfold validateTransactionComplete
    rw [hbasic, if_neg hhash, hnonceEq, hbal]
  refine ⟨hmain, ?_⟩
  unfold CheckTxCode
  dsimp only
  rw [hmain]

/-- Witness for the amended claim C4: value 5 against balance 1. -/
theorem C4_amended_witness :
    (tx5.Value ≠ "" ∧ tx5.Value ≠ "0" ∧ validateTransaction tx5 = none ∧
      tx5.Hash ≠ "" ∧ ¬ tx5.Nonce < acct5.Nonce ∧
      bigIntSetString tx5.Value = some 5 ∧ bigIntSetString acct5.Balance = some 1 ∧
      bigIntSetString tx5.GasPrice = some 1000000000 ∧
      (1 : Int) < 5 + 1000000000 * toInt64 tx5.GasLimit) ∧
    validateTransactionComplete tx5 (some acct5) true (some "0xabc") =
      some TxError.insufficientBalance ∧
    CheckTxCode (some tx5) (some acct5) true (some "0xabc") = 2 :=
  ⟨⟨by decide, by decide, by decide, by decide, by decide, by decide, by decide,
    by decide, by decide⟩,
   C4_amended tx5 acct5 true (some "0xabc") 5 1 1000000000 (by decide) (by decide)
     (by decide) (by decide) (by decide) (by decide) (by decide) (by decide) (by decide)⟩

/-- Claim C5.  The dispatch of `Query` can NEVER reach the account branch:
`path[:7]` is a 7-character string compared against the 8-character literal
"account/".  Concretely, querying `account/<addr>` for an address whose
account exists answers with code 1 through the unknown-path branch. -/
theorem C5_bug :
    (∀ path : String, queryDispatch path ≠ QueryBranch.account) ∧
    queryCode sampleQueryApp ("account/" ++ addr40) = 1 ∧
    queryDispatch ("account/" ++ addr40) = QueryBranch.unknown ∧
    (sampleQueryApp.accounts.find? (fun p => p.1 = addr40)).isSome = true := by
  refine ⟨?_, by decide, by decide, by decide⟩
  intro path h
  unfold queryDispatch at h
  split at h
  · exact QueryBranch.noConfusion h
  · split at h
    · exact QueryBranch.noConfusion h
    · split at h
      · next hc =>
        simp only [Bool.and_eq_true, decide_eq_true_eq] at hc
        have hlen8 : (path.take 7).length = 8 := by rw [hc.2]; rfl
        rw [String.take_eq] at hlen8
        have hlen8' : (path.data.take 7).length = 8 := hlen8
        rw [List.length_take] at hlen8'
        omega
      · split at h
        · exact QueryBranch.noConfusion h
        · split at h
          · exact QueryBranch.noConfusion h
          · exact QueryBranch.noConfusion h

/-- The transaction loop of `FinalizeBlock` never touches the application
state record nor the `block/`, `state_meta`, `latest_height` keys of the
store. -/
theorem finalizeTxStep_frame (exec : Transaction → Option ExecutionResult)
    (acc : ABCIAppM × Store × List Nat) (item : Option Transaction) :
    (finalizeTxStep exec acc item).1.state = acc.1.state ∧
    (finalizeTxStep exec acc item).2.1.blocks = acc.2.1.blocks ∧
    (finalizeTxStep exec acc item).2.1.stateMeta = acc.2.1.stateMeta ∧
    (finalizeTxStep exec acc item).2.1.latestHeight = acc.2.1.latestHeight := by
  rcases acc with ⟨a, s, rs⟩
  unfold finalizeTxStep
  cases item with
  | none => exact ⟨rfl, rfl, rfl, rfl⟩
  | some tx =>
    dsimp only
    cases hv : validateTransaction tx with
    | some e => exact ⟨rfl, rfl, rfl, rfl⟩
    | none =>
      cases he : exec tx with
      | none => exact ⟨rfl, rfl, rfl, rfl⟩
      | some r =>
        dsimp only
        by_cases hs : r.Success = true
        · rw [if_pos hs]; exact ⟨rfl, rfl, rfl, rfl⟩
        · rw [if_neg hs]; exact ⟨rfl, rfl, rfl, rfl⟩

/-- Fold form of the previous frame property. -/
theorem finalizeFold_frame (exec : Transaction → Option ExecutionResult) :
    ∀ (items : List (Option Transaction)) (acc : ABCIAppM × Store × List Nat),
      (items.foldl (finalizeTxStep exec) acc).1.state = acc.1.state ∧
      (items.foldl (finalizeTxStep exec) acc).2.1.blocks = acc.2.1.blocks ∧
      (items.foldl (finalizeTxStep exec) acc).2.1.stateMeta = acc.2.1.stateMeta ∧
      (items.foldl (finalizeTxStep exec) acc).2.1.latestHeight = acc.2.1.latestHeight := by
  intro items
  induction items with
  | nil => intro acc; exact ⟨rfl, rfl, rfl, rfl⟩
  | cons x xs ih =>
    intro acc
    have h1 := finalizeTxStep_frame exec acc x
    have h2 := ih (finalizeTxStep exec acc x)
    simp only [List.foldl_cons]
    exact ⟨h2.1.trans h1.1, h2.2.1.trans h1.2.1, h2.2.2.1.trans h1.2.2.1,
      h2.2.2.2.trans h1.2.2.2⟩

/-- The application state after `FinalizeBlock` is the old one with the
height replaced. -/
theorem finalizeBlockStep_state (app : ABCIAppM) (store : Store)
    (validators : Option ValidatorSet) (height timeU : Int)
    (txs : List (Option Transaction)) (exec : Transaction → Option ExecutionResult) :
    (FinalizeBlockStep app store validators height timeU txs exec).app.state =
      { app.state with Height := height } := by
  unfold FinalizeBlockStep
  dsimp only
  exact (finalizeFold_frame exec txs _).1

/-- The application half of `Commit` only replaces the app hash. -/
theorem commitStep_state (app : ABCIAppM) (store : Store) (stateRoot keccakStateJson : Nat) :
    (CommitStep app store stateRoot keccakStateJson).1.state =
      { app.state with AppHash := if stateRoot ≠ 0 then stateRoot else keccakStateJson } := by
  unfold CommitStep
  dsimp only

/-- Claim C6, counterexample.  Finalizing a block with one successfully
executed transaction WRITES that transaction to the durable store before
any Commit: the store after `FinalizeBlock` differs from the store at the
previous Commit. -/
theorem C6_counterexample :
    (FinalizeBlockStep (NewABCIApp "test-chain") emptyStore none 1 0 [some tx6]
        (fun _ => some ⟨true, 21000⟩)).store ≠ emptyStore ∧
    (FinalizeBlockStep (NewABCIApp "test-chain") emptyStore none 1 0 [some tx6]
        (fun _ => some ⟨true, 21000⟩)).store.txs = [("0xdead", tx6)] := by
  decide

/-- Claim C6, amended.  `FinalizeBlock` writes ONLY the `tx/` namespace of
the durable store (successful transactions); the block record, the state
metadata and the latest height are untouched until `Commit`. -/
theorem C6_amended (app : ABCIAppM) (store : Store) (validators : Option ValidatorSet)
    (height timeU : Int) (txs : List (Option Transaction))
    (exec : Transaction → Option ExecutionResult) :
    (FinalizeBlockStep app store validators height timeU txs exec).store.blocks =
      store.blocks ∧
    (FinalizeBlockStep app store validators height timeU txs exec).store.stateMeta =
      store.stateMeta ∧
    (FinalizeBlockStep app store validators height timeU txs exec).store.latestHeight =
      store.latestHeight := by
  unfold FinalizeBlockStep
  dsimp only
  have h := finalizeFold_frame exec txs
    ({ app with
        state := { app.state with Height := height }
        currentBlockHeight := height.toNat
        currentBlockTime := timeU
        currentBlockTxs := []
        currentBlockReceipts := [] }, store, [])
  exact ⟨h.2.1, h.2.2.1, h.2.2.2⟩

/-- Claim C2, counterexample.  Commit height 4 (the durable store records
`latest_height = 4`), then construct a fresh application as a restart does:
`Info` answers height 0 and the zero app hash — NOT the persisted height 4. -/
theorem C2_counterexample :
    ((CommitStep
        (FinalizeBlockStep (NewABCIApp "test-chain") emptyStore none 4 0 []
          (fun _ => none)).app
        (FinalizeBlockStep (NewABCIApp "test-chain") emptyStore none 4 0 []
          (fun _ => none)).store 7 9).2).latestHeight = some 4 ∧
    Info (NewABCIApp "test-chain") = (0, 0) ∧ ((0 : Int) ≠ 4) := by
  decide

/-- Claim C2, amended.  `Info` answers from the IN-MEMORY `app.state` only:
a freshly constructed application reports height 0 and the zero app hash
regardless of what the store holds, while within one run `Info` after
`FinalizeBlock(h)` + `Commit` reports `h`. -/
theorem C2_amended (chainID : String) (app : ABCIAppM) (store : Store)
    (validators : Option ValidatorSet) (height timeU : Int)
    (txs : List (Option Transaction)) (exec : Transaction → Option ExecutionResult)
    (stateRoot keccakStateJson : Nat) :
    Info (CommitStep (FinalizeBlockStep app store validators height timeU txs exec).app
        (FinalizeBlockStep app store validators height timeU txs exec).store
        stateRoot keccakStateJson).1 =
      (height, if stateRoot ≠ 0 then stateRoot else keccakStateJson) ∧
    Info (NewABCIApp chainID) = (0, 0) := by
  constructor
  · unfold Info
    rw [commitStep_state, finalizeBlockStep_state]
  · rfl

/-- Claim C10.  At `Commit` the published app hash equals the trie root
when that root is non-zero, and otherwise falls back to the Keccak-256 of
the JSON-encoded application state; the persisted state metadata carries
the same value.  Consequently the recorded app hash is NOT always the
state root: with a zero root and digest 5 the app hash is 5. -/
theorem C10_theorem :
    (∀ (app : ABCIAppM) (store : Store) (stateRoot keccakStateJson : Nat),
      (CommitStep app store stateRoot keccakStateJson).1.state.AppHash =
        (if stateRoot ≠ 0 then stateRoot else keccakStateJson) ∧
      (CommitStep app store stateRoot keccakStateJson).2.stateMeta =
        some { root := stateRoot, height := app.state.Height,
               appHash := if stateRoot ≠ 0 then stateRoot else keccakStateJson }) ∧
    (CommitStep (NewABCIApp "oxy") emptyStore 0 5).1.state.AppHash = 5 ∧
    ((0 : Nat) ≠ 5) := by
  refine ⟨?_, by decide, by decide⟩
  intro app store stateRoot keccakStateJson
  constructor
  · rw [commitStep_state]
  · unfold CommitStep
    dsimp only
    split
    · rfl
    · rfl

end Oxg
